import Mathlib

/-
Shallow embedding of the rparse parser-combinator core (src/primitives.rs).

The Rust `state` record, the `status<T>` result type and each combinator of
primitives.rs are translated one-for-one.  The diagnostic hooks `log_ok` and
`log_err` return their argument unchanged (the spec states they never influence
the parse result), so they are elided.  The `repeat0` loop of the source can
diverge for an arbitrary parser, so the loop and every combinator built on it
take an explicit fuel argument and return a `rout` value that distinguishes a
normal result, the source's progress `assert` firing, and fuel exhaustion
(modelling a non-terminating run).
-/

namespace rparse

/-- The parse state: `{file: str, text: [char], index: uint, line: int}`. -/
structure state : Type where
  file : String
  text : List Char
  index : Nat
  line : Int
deriving DecidableEq

/-- A successful parse: `{new_state: state, value: T}`. -/
structure succeeded (T : Type) : Type where
  new_state : state
  value : T
deriving DecidableEq

/-- A failed parse: `{old_state: state, err_state: state, mesg: str}`. -/
structure failed : Type where
  old_state : state
  err_state : state
  mesg : String
deriving DecidableEq

/-- `status<T> = result<succeeded<T>, failed>`. -/
inductive status (T : Type) : Type where
  | ok : succeeded T → status T
  | err : failed → status T
deriving DecidableEq

/-- `parser<T>`: a pure function from a state to a status. -/
def parser (T : Type) : Type := state → status T

/-- `result::chain`: bind on the success side. -/
def chain {T U : Type} (r : status T) (f : succeeded T → status U) : status U :=
  match r with
  | .ok pass => f pass
  | .err failure => .err failure

/-- `result::chain_err`: bind on the failure side. -/
def chain_err {T : Type} (r : status T) (f : failed → status T) : status T :=
  match r with
  | .ok pass => .ok pass
  | .err failure => f failure

/-- `fails(mesg)`: a parser which always fails. -/
def fails {T : Type} (mesg : String) : parser T := fun input =>
  .err { old_state := input, err_state := input, mesg := mesg }

/-- The source's `return(value)`: always succeeds without consuming input
(`return` is a keyword here, hence the name `preturn`). -/
def preturn {T : Type} (value : T) : parser T := fun input =>
  .ok { new_state := input, value := value }

/-- `then(parser, eval)`: run `parser`; on success run `eval` on its value from
its new state; a failure of the second parser is re-based to `old_state = input`. -/
def pthen {T U : Type} (p : parser T) (eval : T → parser U) : parser U := fun input =>
  chain (p input) fun pass =>
    chain_err (eval pass.value pass.new_state) fun failure =>
      .err { failure with old_state := input }

/-- `_then(parser1, parser2)`: like `then` but the first value is discarded. -/
def _then {T U : Type} (p1 : parser T) (p2 : parser U) : parser U := fun input =>
  chain (p1 input) fun pass =>
    chain_err (p2 pass.new_state) fun failure =>
      .err { failure with old_state := input }

/-- `or(parser1, parser2)`: try `parser1`; on failure try `parser2` on the same
input; if both fail keep the failure with the strictly greater `err_state.index`,
joining the messages with " or " on a tie. -/
def or {T : Type} (p1 p2 : parser T) : parser T := fun input =>
  chain_err (p1 input) fun failure1 =>
    chain_err (p2 input) fun failure2 =>
      if failure1.err_state.index > failure2.err_state.index then
        .err failure1
      else if failure1.err_state.index < failure2.err_state.index then
        .err failure2
      else
        .err { failure2 with mesg := failure1.mesg ++ " or " ++ failure2.mesg }

/-- The while loop of `alternative`: try each parser in order, returning the
first success; track the messages tied at the maximum failure index seen. -/
def altLoop {T : Type} (input : state) : List (parser T) → List String → Nat → status T
  | [], errors, max_index =>
    .err { old_state := input, err_state := { input with index := max_index },
           mesg := String.intercalate " or " errors }
  | p :: ps, errors, max_index =>
    match p input with
    | .ok pass => .ok pass
    | .err failure =>
      if failure.err_state.index > max_index then
        altLoop input ps [failure.mesg] failure.err_state.index
      else if failure.err_state.index == max_index then
        altLoop input ps (errors ++ [failure.mesg]) max_index
      else
        altLoop input ps errors max_index

/-- `alternative(parsers)`: n-ary `or` (the source asserts the list nonempty). -/
def alternative {T : Type} (parsers : List (parser T)) : parser T := fun input =>
  altLoop input parsers [] input.index

/-- `optional(parser, missing)`: on failure succeed with `missing` and the
original state. -/
def optional {T : Type} (p : parser T) (missing : T) : parser T := fun input =>
  chain_err (p input) fun _failure =>
    .ok { new_state := input, value := missing }

/-- Outcome of a fueled loop: a normal result, the source's progress assertion
firing, or fuel running out (a non-terminating run of the source). -/
inductive rout (T : Type) : Type where
  | out : status T → rout T
  | assertFail : rout T
  | fuelOut : rout T
deriving DecidableEq

/-- The loop of `repeat0`: apply `p` repeatedly, asserting strict index progress
at each success, accumulating values; the failure ending the loop is discarded. -/
def repeat0Aux {T : Type} (p : parser T) : Nat → state → List T → rout (List T)
  | 0, _, _ => .fuelOut
  | fuel + 1, output, values =>
    match p output with
    | .ok pass =>
      if pass.new_state.index > output.index then
        repeat0Aux p fuel pass.new_state (values ++ [pass.value])
      else
        .assertFail
    | .err _ => .out (.ok { new_state := output, value := values })

/-- `repeat0(parser)`: e*, with explicit fuel. -/
def repeat0 {T : Type} (p : parser T) (fuel : Nat) : state → rout (List T) := fun input =>
  repeat0Aux p fuel input []

/-- `repeat1(parser, err_mesg)`: e+; run `repeat0` and fail with `err_mesg`
when the final index equals the starting index.  `result::get` on a failure
is a task failure in the source, modelled as `assertFail` (unreachable). -/
def repeat1 {T : Type} (p : parser T) (err_mesg : String) (fuel : Nat) :
    state → rout (List T) := fun input =>
  match repeat0 p fuel input with
  | .out (.ok pass) =>
    if pass.new_state.index > input.index then
      .out (.ok pass)
    else
      .out (.err { old_state := input, err_state := pass.new_state, mesg := err_mesg })
  | .out (.err _) => .assertFail
  | .assertFail => .assertFail
  | .fuelOut => .fuelOut

/-- `list(parser, sep)`: e (sep e)*, separator values discarded. -/
def list {T U : Type} (p : parser T) (sep : parser U) (fuel : Nat) :
    state → rout (List T) := fun input =>
  match p input with
  | .err failure => .out (.err failure)
  | .ok pass =>
    match repeat0 (_then sep p) fuel pass.new_state with
    | .out (.ok pass2) =>
      .out (.ok { pass2 with value := pass.value :: pass2.value })
    | .out (.err failure) => .out (.err { failure with old_state := input })
    | .assertFail => .assertFail
    | .fuelOut => .fuelOut

/-- `chain_suffix(parser, op)`: (op e)* as a list of (operator, operand) pairs. -/
def chain_suffix {T U : Type} (p : parser T) (op : parser U) (fuel : Nat) :
    state → rout (List (U × T)) := fun input =>
  repeat0 (pthen op fun operator => pthen p fun value => preturn (operator, value))
    fuel input

/-- `chainl1(parser, op, eval)`: left-associative operator chain via
`vec::foldl` over the `chain_suffix` pairs. -/
def chainl1 {T U : Type} (p : parser T) (op : parser U) (eval : T → U → T → T)
    (fuel : Nat) : state → rout T := fun input =>
  match p input with
  | .err failure => .out (.err failure)
  | .ok pass =>
    match chain_suffix p op fuel pass.new_state with
    | .out (.ok pass2) =>
      .out (.ok { new_state := pass2.new_state,
                  value := pass2.value.foldl
                    (fun lhs rhs => eval lhs rhs.1 rhs.2) pass.value })
    | .out (.err failure) => .out (.err { failure with old_state := input })
    | .assertFail => .assertFail
    | .fuelOut => .fuelOut

/-- `chainr1(parser, op, eval)`: right-associative operator chain.  The source
unzips the pairs, pulls the last operand out as the fold seed, re-pairs the
operators with the preceding operands, and `vec::foldr`s. -/
def chainr1 {T U : Type} (p : parser T) (op : parser U) (eval : T → U → T → T)
    (fuel : Nat) : state → rout T := fun input =>
  match p input with
  | .err failure => .out (.err failure)
  | .ok pass =>
    match chain_suffix p op fuel pass.new_state with
    | .out (.ok pass2) =>
      match pass2.value with
      | [] => .out (.ok { new_state := pass2.new_state, value := pass.value })
      | t :: ts =>
        let e1 := pass.value
        let terms := t :: ts
        let ops := terms.map Prod.fst
        let operands := terms.map Prod.snd
        let e3 := operands.getLastD t.2
        let operands2 := e1 :: operands.dropLast
        let terms2 := operands2.zip ops
        .out (.ok { new_state := pass2.new_state,
                    value := terms2.foldr
                      (fun lhs rhs => eval lhs.1 lhs.2 rhs) e3 })
    | .out (.err failure) => .out (.err { failure with old_state := input })
    | .assertFail => .assertFail
    | .fuelOut => .fuelOut

/-- `tag(parser, label)`: replace the message with `label` only when the
failure made no progress past the input position. -/
def tag {T : Type} (p : parser T) (label : String) : parser T := fun input =>
  chain_err (p input) fun failure =>
    if failure.err_state.index == input.index then
      .err { failure with mesg := label }
    else
      .err failure

/-- Modelled from the spec: `chars_with_eot` (from the repository's misc
module, not under src/) turns the text into a character sequence with an
explicit end-of-input sentinel appended. -/
def chars_with_eot (text : String) : List Char :=
  text.data ++ [Char.ofNat 3]

/-- `parse(parser, file, text)`: build the initial state (index 0, line 1,
EOT-terminated text), run the parser, and prefix a failure's message with
"Expected ". -/
def parse {T : Type} (p : parser T) (file : String) (text : String) : status T :=
  let chars := chars_with_eot text
  let input : state := { file := file, text := chars, index := 0, line := 1 }
  chain_err (p input) fun failure =>
    .err { failure with mesg := "Expected " ++ failure.mesg }

/-! Concrete parsers used to exercise the combinators, in the role of the
repository's lexical rules (which live outside the core). -/

/-- An initial state over the raw characters of `s`. -/
def mkState (s : String) : state :=
  { file := "test", text := s.data, index := 0, line := 1 }

/-- A test parser reading one decimal digit as a Nat, advancing one character. -/
def digitN : parser Nat := fun input =>
  let c := (input.text.getD input.index (Char.ofNat 0))
  if c.isDigit then
    .ok { new_state := { input with index := input.index + 1 }, value := c.toNat - 48 }
  else
    .err { old_state := input, err_state := input, mesg := "digit" }

/-- A test parser matching one given character, advancing one character. -/
def opC (c : Char) : parser Char := fun input =>
  if (input.text.getD input.index (Char.ofNat 0)) == c then
    .ok { new_state := { input with index := input.index + 1 }, value := c }
  else
    .err { old_state := input, err_state := input, mesg := String.singleton c }

/-- A test parser that always fails with its err_state at index `n`. -/
def failAt {T : Type} (n : Nat) (mesg : String) : parser T := fun input =>
  .err { old_state := input, err_state := { input with index := n }, mesg := mesg }

/-- The right fold named by the claim: `eval(e1, op1, eval(e2, op2, ...))`,
stated independently of the source's unzip/re-zip restructuring. -/
def rfold {T U : Type} (eval : T → U → T → T) : T → List (U × T) → T
  | e1, [] => e1
  | e1, (o, e2) :: rest => eval e1 o (rfold eval e2 rest)

/-- Specification of the repeat0 loop: from `s`, successive applications of
`p` succeed with the listed values, ending in a state where `p` fails. -/
inductive Repeats {T : Type} (p : parser T) : state → List T → state → Prop where
  | done : ∀ s failure, p s = .err failure → Repeats p s [] s
  | step : ∀ s pass vs send, p s = .ok pass → Repeats p pass.new_state vs send →
      Repeats p s (pass.value :: vs) send

theorem intercalate_one (s a : String) : String.intercalate s [a] = a := rfl

theorem intercalate_two (s a b : String) :
    String.intercalate s [a, b] = a ++ s ++ b := rfl

/-- The value computed by chainr1's restructuring (pull the last operand out as
the seed, re-pair operators with preceding operands, `vec::foldr`) equals the
natural right fold. -/
theorem chainr_value_eq {T U : Type} (eval : T → U → T → T) :
    ∀ (ts : List (U × T)) (e1 : T) (t : U × T),
      ((e1 :: ((t :: ts).map Prod.snd).dropLast).zip ((t :: ts).map Prod.fst)).foldr
          (fun lhs rhs => eval lhs.1 lhs.2 rhs) (((t :: ts).map Prod.snd).getLastD t.2)
        = rfold eval e1 (t :: ts) := by
  intro ts
  induction ts with
  | nil =>
    intro e1 t
    obtain ⟨o, e2⟩ := t
    simp [rfold]
  | cons t2 ts2 ih =>
    intro e1 t
    obtain ⟨o, e2⟩ := t
    have h2 := ih e2 t2
    simp only [List.map_cons] at h2 ⊢
    simp only [List.dropLast_cons₂, List.zip_cons_cons, List.foldr_cons,
      List.getLastD_cons] at h2 ⊢
    rw [h2]
    simp [rfold]

/-- C1: when both parsers fail on a state (their failures being at or past the
input position, as every failure of this library is), `or` returns the failure
with the strictly greater err_state index, merging the two messages with " or "
at the shared index on an exact tie; `alternative` over the same two failing
parsers reports the deeper failure's message (the tied messages joined with
" or ") at that same maximum index. -/
theorem or_alternative_deepest {T : Type} (p1 p2 : parser T) (input : state)
    (f1 f2 : failed) (h1 : p1 input = .err f1) (h2 : p2 input = .err f2)
    (hb1 : input.index ≤ f1.err_state.index) (hb2 : input.index ≤ f2.err_state.index) :
    (f2.err_state.index < f1.err_state.index →
      or p1 p2 input = .err f1 ∧
      alternative [p1, p2] input =
        .err { old_state := input,
               err_state := { input with index := f1.err_state.index },
               mesg := f1.mesg }) ∧
    (f1.err_state.index < f2.err_state.index →
      or p1 p2 input = .err f2 ∧
      alternative [p1, p2] input =
        .err { old_state := input,
               err_state := { input with index := f2.err_state.index },
               mesg := f2.mesg }) ∧
    (f1.err_state.index = f2.err_state.index →
      or p1 p2 input = .err { f2 with mesg := f1.mesg ++ " or " ++ f2.mesg } ∧
      alternative [p1, p2] input =
        .err { old_state := input,
               err_state := { input with index := f1.err_state.index },
               mesg := f1.mesg ++ " or " ++ f2.mesg }) := by
  refine ⟨fun hlt => ⟨?_, ?_⟩, fun hlt => ⟨?_, ?_⟩, fun heq => ⟨?_, ?_⟩⟩
  · simp [or, chain_err, h1, h2, hlt]
  · have ha : input.index < f1.err_state.index := lt_of_le_of_lt hb2 hlt
    have hc1 : ¬ f1.err_state.index < f2.err_state.index := by omega
    have hc2 : (f2.err_state.index == f1.err_state.index) = false := by
      simp only [beq_eq_false_iff_ne, ne_eq]; omega
    simp [alternative, altLoop, h1, h2, ha, hc1, hc2, intercalate_one]
  · have hc1 : ¬ f2.err_state.index < f1.err_state.index := by omega
    simp [or, chain_err, h1, h2, hlt, hc1]
  · rcases Nat.eq_or_lt_of_le hb1 with he | ha
    · have hc1 : ¬ input.index < f1.err_state.index := by omega
      have hc2 : (f1.err_state.index == input.index) = true := by
        simp only [beq_iff_eq]; omega
      have hc3 : input.index < f2.err_state.index := by omega
      simp [alternative, altLoop, h1, h2, hc1, hc2, hc3, intercalate_one]
    · have hc1 : f1.err_state.index < f2.err_state.index := hlt
      simp [alternative, altLoop, h1, h2, ha, hc1, intercalate_one]
  · have hc1 : ¬ f2.err_state.index < f1.err_state.index := by omega
    have hc2 : ¬ f1.err_state.index < f2.err_state.index := by omega
    simp [or, chain_err, h1, h2, hc1, hc2]
  · rcases Nat.eq_or_lt_of_le hb1 with he | ha
    · have hc1 : ¬ input.index < f1.err_state.index := by omega
      have hc2 : (f1.err_state.index == input.index) = true := by
        simp only [beq_iff_eq]; omega
      have hc3 : ¬ input.index < f2.err_state.index := by omega
      have hc4 : (f2.err_state.index == input.index) = true := by
        simp only [beq_iff_eq]; omega
      have hc5 : { input with index := f1.err_state.index } = input := by
        cases input; simp_all
      simp [alternative, altLoop, h1, h2, hc1, hc2, hc3, hc4, hc5, intercalate_two, ← he]
    · have hc1 : ¬ f1.err_state.index < f2.err_state.index := by omega
      have hc2 : (f2.err_state.index == f1.err_state.index) = true := by
        simp only [beq_iff_eq]; omega
      simp [alternative, altLoop, h1, h2, ha, hc1, hc2, intercalate_two]

theorem or_alternative_deepest_witness :
    (or (failAt 3 "A" : parser Nat) (failAt 1 "B") (mkState "abcd")
        = .err { old_state := mkState "abcd",
                 err_state := { mkState "abcd" with index := 3 }, mesg := "A" }) ∧
    (alternative ([failAt 3 "A", failAt 1 "B"] : List (parser Nat)) (mkState "abcd")
        = .err { old_state := mkState "abcd",
                 err_state := { mkState "abcd" with index := 3 }, mesg := "A" }) :=
  (or_alternative_deepest (failAt 3 "A" : parser Nat) (failAt 1 "B") (mkState "abcd")
    _ _ rfl rfl (by decide) (by decide)).1 (by decide)

/-- C4: optional(p, missing) never fails: it passes p's success through
unchanged, and on any failure of p — however far p advanced — it succeeds
with value `missing` at the original, unconsumed input state. -/
theorem optional_total {T : Type} (p : parser T) (missing : T) (input : state) :
    (∀ pass, p input = .ok pass → optional p missing input = .ok pass) ∧
    (∀ failure, p input = .err failure →
      optional p missing input = .ok { new_state := input, value := missing }) ∧
    (∀ failure, optional p missing input ≠ .err failure) := by
  refine ⟨?_, ?_, ?_⟩
  · intro pass h
    simp [optional, chain_err, h]
  · intro failure h
    simp [optional, chain_err, h]
  · intro failure
    cases h : p input <;> simp [optional, chain_err, h]

theorem optional_total_witness :
    optional (fails "boom" : parser Nat) 7 (mkState "a")
      = .ok { new_state := mkState "a", value := 7 } :=
  (optional_total (fails "boom" : parser Nat) 7 (mkState "a")).2.1 _ rfl

/-- C9: tag(p, label) replaces the message of a failure that made no progress
(err_state.index equal to the input index) with `label`, and keeps the
original message of a failure whose index is past the input index. -/
theorem tag_zero_progress {T : Type} (p : parser T) (label : String) (input : state)
    (failure : failed) (h : p input = .err failure) :
    (failure.err_state.index = input.index →
      tag p label input = .err { failure with mesg := label }) ∧
    (input.index < failure.err_state.index →
      tag p label input = .err failure) := by
  constructor
  · intro hidx
    simp [tag, chain_err, h, hidx]
  · intro hidx
    have hne : failure.err_state.index ≠ input.index := by omega
    simp [tag, chain_err, h, hne]

theorem tag_zero_progress_witness :
    (tag (fails "m" : parser Nat) "L" (mkState "ab")
        = .err { old_state := mkState "ab", err_state := mkState "ab", mesg := "L" }) ∧
    (tag (failAt 2 "deep" : parser Nat) "L" (mkState "ab")
        = .err { old_state := mkState "ab",
                 err_state := { mkState "ab" with index := 2 }, mesg := "deep" }) :=
  ⟨(tag_zero_progress (fails "m" : parser Nat) "L" (mkState "ab") _ rfl).1 rfl,
   (tag_zero_progress (failAt 2 "deep" : parser Nat) "L" (mkState "ab") _ rfl).2 (by decide)⟩

/-- C10: when the parser fails from the initial state (index 0, line 1,
EOT-terminated text), parse returns a failure whose message is exactly
"Expected " prepended to the deepest failure's message, the failing state —
its line number included — unchanged. -/
theorem parse_expected {T : Type} (p : parser T) (file text : String) (failure : failed)
    (h : p { file := file, text := chars_with_eot text, index := 0, line := 1 }
          = .err failure) :
    parse p file text = .err { failure with mesg := "Expected " ++ failure.mesg } := by
  simp [parse, chain_err, h]

theorem parse_expected_witness :
    parse (fails "digits" : parser Nat) "f" "ab"
      = .err { old_state := { file := "f", text := chars_with_eot "ab", index := 0, line := 1 },
               err_state := { file := "f", text := chars_with_eot "ab", index := 0, line := 1 },
               mesg := "Expected digits" } :=
  parse_expected (fails "digits" : parser Nat) "f" "ab" _ rfl

/-- C2: when p succeeds with a seed value and chain_suffix yields the
(operator, operand) pairs, chainl1 succeeds from the suffix's resulting state
with the left fold eval(...eval(eval(v0, op1, e1), op2, e2)..., opn, en). -/
theorem chainl1_left_fold {T U : Type} (p : parser T) (op : parser U)
    (eval : T → U → T → T) (fuel : Nat) (input : state)
    (pass : succeeded T) (pass2 : succeeded (List (U × T)))
    (hp : p input = .ok pass)
    (hs : chain_suffix p op fuel pass.new_state = .out (.ok pass2)) :
    chainl1 p op eval fuel input =
      .out (.ok { new_state := pass2.new_state,
                  value := pass2.value.foldl
                    (fun lhs rhs => eval lhs rhs.1 rhs.2) pass.value }) := by
  simp [chainl1, hp, hs]

theorem chainl1_left_fold_witness :
    chainl1 digitN (opC (Char.ofNat 45)) (fun lhs _o rhs => lhs - rhs) 6 (mkState "9-3-2")
      = .out (.ok { new_state := { mkState "9-3-2" with index := 5 }, value := 4 }) :=
  chainl1_left_fold digitN (opC (Char.ofNat 45)) (fun lhs _o rhs => lhs - rhs) 6
    (mkState "9-3-2") _ _ rfl rfl

/-- C3: when p succeeds with e1 and chain_suffix yields the pairs, chainr1
succeeds with the right fold rfold — e1 unchanged for the empty pair sequence,
eval(e1, op1, eval(e2, op2, ... eval(e_n-1, op_n-1, e_n))) otherwise. -/
theorem chainr1_right_fold {T U : Type} (p : parser T) (op : parser U)
    (eval : T → U → T → T) (fuel : Nat) (input : state)
    (pass : succeeded T) (pass2 : succeeded (List (U × T)))
    (hp : p input = .ok pass)
    (hs : chain_suffix p op fuel pass.new_state = .out (.ok pass2)) :
    chainr1 p op eval fuel input =
      .out (.ok { new_state := pass2.new_state,
                  value := rfold eval pass.value pass2.value }) := by
  cases hv : pass2.value with
  | nil => simp [chainr1, hp, hs, hv, rfold]
  | cons t ts =>
    simp only [chainr1, hp, hs, hv]
    rw [chainr_value_eq eval ts pass.value t]

theorem chainr1_right_fold_witness :
    chainr1 digitN (opC (Char.ofNat 94)) (fun lhs _o rhs => lhs ^ rhs) 6 (mkState "2^3^2")
      = .out (.ok { new_state := { mkState "2^3^2" with index := 5 }, value := 512 }) :=
  chainr1_right_fold digitN (opC (Char.ofNat 94)) (fun lhs _o rhs => lhs ^ rhs) 6
    (mkState "2^3^2") _ _ rfl rfl

theorem digitN_progress : ∀ (s : state) (pass : succeeded Nat),
    digitN s = .ok pass → s.index < pass.new_state.index := by
  intro s pass h
  simp only [digitN] at h
  split at h
  · cases h; simp
  · cases h

theorem digitN_keep : ∀ (s : state) (pass : succeeded Nat),
    digitN s = .ok pass → pass.new_state.text = s.text := by
  intro s pass h
  simp only [digitN] at h
  split at h
  · cases h; rfl
  · cases h

theorem digitN_bound : ∀ (s : state) (pass : succeeded Nat),
    digitN s = .ok pass → pass.new_state.index ≤ s.text.length := by
  intro s pass h
  simp only [digitN] at h
  split at h
  case isTrue hd =>
    cases h
    simp only
    by_contra hlt
    push_neg at hlt
    rw [List.getD_eq_default] at hd
    · exact absurd hd (by decide)
    · omega
  case isFalse hd => cases h

theorem repeat0Aux_succ_ok {T : Type} {p : parser T} {s : state} {pass1 : succeeded T}
    (hps : p s = .ok pass1) (fuel : Nat) (acc : List T) :
    repeat0Aux p (fuel + 1) s acc =
      if pass1.new_state.index > s.index then
        repeat0Aux p fuel pass1.new_state (acc ++ [pass1.value])
      else .assertFail := by
  simp [repeat0Aux, hps]

theorem repeat0Aux_succ_err {T : Type} {p : parser T} {s : state} {f : failed}
    (hps : p s = .err f) (fuel : Nat) (acc : List T) :
    repeat0Aux p (fuel + 1) s acc = .out (.ok { new_state := s, value := acc }) := by
  simp [repeat0Aux, hps]

theorem repeat0Aux_of_repeats {T : Type} {p : parser T}
    (hprog : ∀ s pass, p s = .ok pass → s.index < pass.new_state.index)
    {s : state} {vs : List T} {send : state} (hrep : Repeats p s vs send) :
    ∀ (fuel : Nat) (acc : List T), vs.length < fuel →
      repeat0Aux p fuel s acc = .out (.ok { new_state := send, value := acc ++ vs }) := by
  induction hrep with
  | done s failure hf =>
    intro fuel acc hfuel
    match fuel, hfuel with
    | fuel + 1, _ => simp [repeat0Aux, hf]
  | step s pass vs send hok hrep ih =>
    intro fuel acc hfuel
    match fuel, hfuel with
    | fuel + 1, hfuel =>
      have hgt := hprog s pass hok
      have hfuel2 : vs.length < fuel := by
        simp only [List.length_cons] at hfuel; omega
      simp only [repeat0Aux, hok, if_pos hgt]
      rw [ih fuel (acc ++ [pass.value]) hfuel2]
      simp

theorem repeat0Aux_index_mono {T : Type} (p : parser T) :
    ∀ (fuel : Nat) (s : state) (acc : List T) (pass : succeeded (List T)),
      repeat0Aux p fuel s acc = .out (.ok pass) → s.index ≤ pass.new_state.index := by
  intro fuel
  induction fuel with
  | zero => intro s acc pass h; simp [repeat0Aux] at h
  | succ fuel ih =>
    intro s acc pass h
    cases hps : p s with
    | ok pass1 =>
      rw [repeat0Aux_succ_ok hps] at h
      split at h
      next hgt =>
        have := ih pass1.new_state (acc ++ [pass1.value]) pass h
        omega
      next hgt => cases h
    | err f =>
      rw [repeat0Aux_succ_err hps] at h
      cases h
      exact le_refl _

theorem repeat0Aux_stay {T : Type} (p : parser T) :
    ∀ (fuel : Nat) (s : state) (acc : List T) (pass : succeeded (List T)),
      repeat0Aux p fuel s acc = .out (.ok pass) → pass.new_state.index = s.index →
      pass.new_state = s ∧ pass.value = acc := by
  intro fuel
  induction fuel with
  | zero => intro s acc pass h heq; simp [repeat0Aux] at h
  | succ fuel ih =>
    intro s acc pass h heq
    cases hps : p s with
    | ok pass1 =>
      rw [repeat0Aux_succ_ok hps] at h
      split at h
      next hgt =>
        have := repeat0Aux_index_mono p fuel pass1.new_state (acc ++ [pass1.value]) pass h
        omega
      next hgt => cases h
    | err f =>
      rw [repeat0Aux_succ_err hps] at h
      cases h
      exact ⟨rfl, rfl⟩

theorem repeat0Aux_no_err {T : Type} (p : parser T) :
    ∀ (fuel : Nat) (s : state) (acc : List T) (failure : failed),
      repeat0Aux p fuel s acc ≠ .out (.err failure) := by
  intro fuel
  induction fuel with
  | zero => intro s acc failure h; simp [repeat0Aux] at h
  | succ fuel ih =>
    intro s acc failure h
    cases hps : p s with
    | ok pass1 =>
      rw [repeat0Aux_succ_ok hps] at h
      split at h
      next hgt => exact ih pass1.new_state (acc ++ [pass1.value]) failure h
      next hgt => cases h
    | err f =>
      rw [repeat0Aux_succ_err hps] at h
      cases h

theorem repeat0Aux_terminates {T : Type} {p : parser T}
    (hprog : ∀ s pass, p s = .ok pass → s.index < pass.new_state.index)
    (hkeep : ∀ s pass, p s = .ok pass → pass.new_state.text = s.text)
    (hbound : ∀ s pass, p s = .ok pass → pass.new_state.index ≤ s.text.length) :
    ∀ (fuel : Nat) (s : state) (acc : List T), s.text.length - s.index < fuel →
      ∃ pass, repeat0Aux p fuel s acc = .out (.ok pass) := by
  intro fuel
  induction fuel with
  | zero => intro s acc h; omega
  | succ fuel ih =>
    intro s acc h
    cases hps : p s with
    | err f =>
      exact ⟨{ new_state := s, value := acc }, by simp [repeat0Aux, hps]⟩
    | ok pass =>
      have h1 := hprog s pass hps
      have h2 := hkeep s pass hps
      have h3 := hbound s pass hps
      have hrec : pass.new_state.text.length - pass.new_state.index < fuel := by
        rw [h2]; omega
      obtain ⟨pass2, hp2⟩ := ih pass.new_state (acc ++ [pass.value]) hrec
      exact ⟨pass2, by simp only [repeat0Aux, hps, if_pos h1]; exact hp2⟩

/-- C5: under the progress invariant, whenever the loop specification Repeats
holds — successive successful applications of p with values vs, ending in a
state where p fails — repeat0, given fuel beyond the iteration count, returns
success (never a failure) whose value is vs in iteration order and whose state
is the one after the last success (the input state itself when the first
application fails); the loop-ending failure is discarded. -/
theorem repeat0_spec {T : Type} (p : parser T) (input : state) (vs : List T)
    (send : state) (fuel : Nat)
    (hprog : ∀ s pass, p s = .ok pass → s.index < pass.new_state.index)
    (hrep : Repeats p input vs send) (hfuel : vs.length < fuel) :
    repeat0 p fuel input = .out (.ok { new_state := send, value := vs }) := by
  have h := repeat0Aux_of_repeats hprog hrep fuel [] hfuel
  simpa [repeat0] using h

theorem repeat0_spec_witness :
    repeat0 digitN 3 (mkState "12")
      = .out (.ok { new_state := { mkState "12" with index := 2 }, value := [1, 2] }) :=
  repeat0_spec digitN (mkState "12") [1, 2] { mkState "12" with index := 2 } 3
    digitN_progress
    (Repeats.step _ ⟨{ mkState "12" with index := 1 }, 1⟩ _ _ rfl
      (Repeats.step _ ⟨{ mkState "12" with index := 2 }, 2⟩ _ _ rfl
        (Repeats.done _ ⟨{ mkState "12" with index := 2 },
          { mkState "12" with index := 2 }, "digit"⟩ rfl)))
    (by decide)

/-- C6: for a parser that strictly advances on every success (staying within
its finite text, whose contents it leaves unchanged), repeat0 and repeat1 with
fuel text-length − index terminate normally; while a parser that succeeds
without consuming input makes the loop's progress assertion fire immediately
instead of running forever. -/
theorem repeat_termination_and_assert {T : Type} :
    (∀ (p : parser T) (m : String) (fuel : Nat) (input : state),
      (∀ s pass, p s = .ok pass → s.index < pass.new_state.index) →
      (∀ s pass, p s = .ok pass → pass.new_state.text = s.text) →
      (∀ s pass, p s = .ok pass → pass.new_state.index ≤ s.text.length) →
      input.text.length - input.index < fuel →
      (∃ pass, repeat0 p fuel input = .out (.ok pass)) ∧
      (∃ r, repeat1 p m fuel input = .out r)) ∧
    (∀ (p : parser T) (m : String) (fuel : Nat) (input : state) (pass : succeeded T),
      p input = .ok pass → pass.new_state.index ≤ input.index →
      repeat0 p (fuel + 1) input = .assertFail ∧
      repeat1 p m (fuel + 1) input = .assertFail) := by
  constructor
  · intro p m fuel input hprog hkeep hbound hfuel
    obtain ⟨pass, hp⟩ := repeat0Aux_terminates hprog hkeep hbound fuel input [] hfuel
    have h0 : repeat0 p fuel input = .out (.ok pass) := hp
    refine ⟨⟨pass, h0⟩, ?_⟩
    by_cases hgt : pass.new_state.index > input.index
    · exact ⟨.ok pass, by simp [repeat1, h0, hgt]⟩
    · exact ⟨.err { old_state := input, err_state := pass.new_state, mesg := m },
        by simp [repeat1, h0, hgt]⟩
  · intro p m fuel input pass hok hle
    have hngt : ¬ pass.new_state.index > input.index := by omega
    have h0 : repeat0 p (fuel + 1) input = .assertFail := by
      simp [repeat0, repeat0Aux, hok, hngt]
    exact ⟨h0, by simp [repeat1, h0]⟩

theorem repeat_termination_and_assert_witness :
    ((∃ pass, repeat0 digitN 3 (mkState "12") = .out (.ok pass)) ∧
      (∃ r, repeat1 digitN "digits" 3 (mkState "12") = .out r)) ∧
    (repeat0 (preturn 7 : parser Nat) 1 (mkState "a") = .assertFail ∧
      repeat1 (preturn 7 : parser Nat) "digits" 1 (mkState "a") = .assertFail) :=
  ⟨(@repeat_termination_and_assert Nat).1 digitN "digits" 3 (mkState "12")
      digitN_progress digitN_keep digitN_bound (by decide),
   (@repeat_termination_and_assert Nat).2 (preturn 7) "digits" 0 (mkState "a")
      ⟨mkState "a", 7⟩ rfl (by decide)⟩

/-- C7: when repeat0 returns a success, repeat1 returns exactly that success
if its final index moved past the starting index (at least one iteration), and
otherwise — the final index equal to the starting one, zero iterations — fails
with the given message positioned at the starting state. -/
theorem repeat1_vs_repeat0 {T : Type} (p : parser T) (m : String) (fuel : Nat)
    (input : state) (pass : succeeded (List T))
    (h : repeat0 p fuel input = .out (.ok pass)) :
    (input.index < pass.new_state.index →
      repeat1 p m fuel input = .out (.ok pass)) ∧
    (pass.new_state.index = input.index →
      repeat1 p m fuel input =
        .out (.err { old_state := input, err_state := input, mesg := m })) := by
  constructor
  · intro hlt
    simp [repeat1, h, hlt]
  · intro heq
    obtain ⟨hstate, _⟩ := repeat0Aux_stay p fuel input [] pass h heq
    have hngt : ¬ input.index < pass.new_state.index := by omega
    simp [repeat1, h, hngt, hstate]

theorem repeat1_vs_repeat0_witness :
    (repeat1 digitN "digits" 3 (mkState "1a")
      = .out (.ok { new_state := { mkState "1a" with index := 1 }, value := [1] })) ∧
    (repeat1 digitN "digits" 3 (mkState "a1")
      = .out (.err { old_state := mkState "a1", err_state := mkState "a1",
                     mesg := "digits" })) :=
  ⟨(repeat1_vs_repeat0 digitN "digits" 3 (mkState "1a") _ rfl).1 (by decide),
   (repeat1_vs_repeat0 digitN "digits" 3 (mkState "a1") _ rfl).2 (by decide)⟩

/-- C8: list(p, sep) fails exactly when the first p fails, propagating that
very failure; on success its value is the first p's value followed by the
p-values of the repeated (sep, p) pairs, the separators' values discarded — the
one-element sequence when zero separators match. -/
theorem list_first_p {T U : Type} (p : parser T) (sep : parser U) (fuel : Nat)
    (input : state) :
    (∀ failure, p input = .err failure →
      list p sep fuel input = .out (.err failure)) ∧
    (∀ pass pass2, p input = .ok pass →
      repeat0 (_then sep p) fuel pass.new_state = .out (.ok pass2) →
      list p sep fuel input =
        .out (.ok { new_state := pass2.new_state,
                    value := pass.value :: pass2.value })) ∧
    (∀ pass, p input = .ok pass →
      ∀ failure, list p sep fuel input ≠ .out (.err failure)) := by
  refine ⟨?_, ?_, ?_⟩
  · intro failure h
    simp [list, h]
  · intro pass pass2 h hterm
    simp [list, h, hterm]
  · intro pass h failure
    simp only [list, h]
    cases hterm : repeat0 (_then sep p) fuel pass.new_state with
    | out r =>
      cases r with
      | ok pass2 => simp
      | err f => exact absurd hterm (repeat0Aux_no_err (_then sep p) fuel _ [] f)
    | assertFail => simp
    | fuelOut => simp

theorem list_first_p_witness :
    (list digitN (opC (Char.ofNat 44)) 4 (mkState "1,2")
      = .out (.ok { new_state := { mkState "1,2" with index := 3 }, value := [1, 2] })) ∧
    (list digitN (opC (Char.ofNat 44)) 4 (mkState "1")
      = .out (.ok { new_state := { mkState "1" with index := 1 }, value := [1] })) ∧
    (list digitN (opC (Char.ofNat 44)) 4 (mkState "x")
      = .out (.err { old_state := mkState "x", err_state := mkState "x",
                     mesg := "digit" })) :=
  ⟨(list_first_p digitN (opC (Char.ofNat 44)) 4 (mkState "1,2")).2.1 _ _ rfl rfl,
   (list_first_p digitN (opC (Char.ofNat 44)) 4 (mkState "1")).2.1 _ _ rfl rfl,
   (list_first_p digitN (opC (Char.ofNat 44)) 4 (mkState "x")).1 _ rfl⟩

end rparse
